import Mathlib

/-!
# Verification of the libDebug core against its specification

A shallow embedding of the byte-level parts of the libDebug debugger engine
(`src/lib` of the repository), with theorems settling the specified
properties.  Machine integers are modelled as `Nat` with explicit reduction
modulo `2 ^ w` where overflow matters; buffers are `List Nat` of byte values;
target memory is a function `Nat → Nat`.
-/

namespace LibDebug

/-! ## Little-endian byte encoding

`memcpy` between an integer object and a byte buffer on x86 moves
little-endian bytes; these two functions model that. -/

/-- The first `k` little-endian bytes of the value `v`. -/
def leBytes : Nat → Nat → List Nat
  | 0, _ => []
  | k + 1, v => v % 256 :: leBytes k (v / 256)

/-- The value represented by a little-endian byte list. -/
def leDecode : List Nat → Nat
  | [] => 0
  | b :: bs => b + 256 * leDecode bs

/-! ## `RegisterRef` (src/lib/include/Debug/RegisterRef.hpp)

A `RegisterRef` points at a field of `size_` bytes inside a `Context`.
A field is modelled as the list of its `size_` byte values
(little-endian order, as on the target architecture). -/

/-- `RegisterRef::as<Integer>()`: zero a local of `sizeof Integer` bytes, then
`memcpy` `min(size_, sizeof Integer)` bytes from the field into it.
(`List.take` caps at the list length, which models the `min`.) -/
def regAs (field : List Nat) (isize : Nat) : Nat :=
  leDecode (field.take isize)

/-- `RegisterRef::operator=(Integer value)`: `memset` the whole `size_`-byte
field to zero, then `memcpy` `min(size_, sizeof Integer)` bytes of `value`
into it.  `S` is the field size `size_`, `isize` is `sizeof Integer`. -/
def regAssign (S isize v : Nat) : List Nat :=
  leBytes (min S isize) v ++ List.replicate (S - min S isize) 0

/-- `RegisterRef::operator+=(Integer value)` as implemented: the switch
dispatches on `size_ ∈ {1, 2, 4, 8}` (any other size asserts), but in every
case both `memcpy`s move exactly 1 byte (`memcpy(&uN, ptr_, 1)` and
`memcpy(ptr_, &uN, 1)`).  Only byte 0 of the field is read and written: the
written byte is the low byte of the sum, which depends only on byte 0 of the
field and the added value (the high bytes of the union member are
uninitialized but are never written back).  `none` models the assertion
failure on other sizes. -/
def regAddAssign (field : List Nat) (v : Nat) : Option (List Nat) :=
  match field with
  | [] => none
  | b0 :: rest =>
    if field.length = 1 ∨ field.length = 2 ∨ field.length = 4 ∨ field.length = 8 then
      some ((b0 + v) % 256 :: rest)
    else
      none

/-- `RegisterRef::operator++` as implemented: same switch as `operator+=`,
incrementing the sized union member, again with both `memcpy`s moving 1 byte. -/
def regInc (field : List Nat) : Option (List Nat) :=
  match field with
  | [] => none
  | b0 :: rest =>
    if field.length = 1 ∨ field.length = 2 ∨ field.length = 4 ∨ field.length = 8 then
      some ((b0 + 1) % 256 :: rest)
    else
      none

/-! ## FNV hashing (src/lib/Proc.cpp, class `hasher`) -/

/-- The FNV 64-bit prime `0x100000001b3`. -/
def fnvPrime : Nat := 1099511628211

/-- The FNV 64-bit offset basis `0xcbf29ce484222325`, the initial `state_`. -/
def fnvInit : Nat := 0xcbf29ce484222325

/-- One step of `hasher::update`:
`state_ = (state_ * 1099511628211ULL) ^ *p` — the 64-bit multiplication wraps
modulo `2 ^ 64`, then the byte is xor-ed in. -/
def hasherUpdate (st b : Nat) : Nat :=
  (st * fnvPrime) % 2 ^ 64 ^^^ b

/-- `hasher::update` over a whole byte string followed by `hasher::digest`,
starting from the freshly constructed state. -/
def hashBytes (bs : List Nat) : Nat :=
  bs.foldl hasherUpdate fnvInit

/-- Modelled from the spec (for comparison only): one step of FNV-1a as the
spec describes it — xor the byte into the state first, then multiply by the
prime modulo `2 ^ 64`. -/
def fnv1aUpdateSpec (st b : Nat) : Nat :=
  ((st ^^^ b) * fnvPrime) % 2 ^ 64

/-- FNV-1a over a byte string as the spec describes it. -/
def fnv1aHashSpec (bs : List Nat) : Nat :=
  bs.foldl fnv1aUpdateSpec fnvInit

/-! ## Region permissions (src/lib/Proc.cpp `enumerate_regions`,
src/lib/include/Debug/Region.hpp) -/

namespace Region

/-- `Region::Permissions::Read`. -/
def Read : Nat := 0x0001

/-- `Region::Permissions::Write`. -/
def Write : Nat := 0x0002

/-- `Region::Permissions::Execute`. -/
def Execute : Nat := 0x0004

/-- `Region::Permissions::Shared`. -/
def Shared : Nat := 0x1000

/-- `Region::Permissions::Private`. -/
def Private : Nat := 0x2000

end Region

/-- The permission bits derived from a character string by the five
`permissions |= (!!strchr(s, c) * Region::Bit)` lines of
`enumerate_regions`. -/
def permBits (s : List Char) : Nat :=
  ((((if 'r' ∈ s then Region.Read else 0) |||
     (if 'w' ∈ s then Region.Write else 0)) |||
     (if 'x' ∈ s then Region.Execute else 0)) |||
     (if 'p' ∈ s then Region.Private else 0)) |||
     (if 's' ∈ s then Region.Shared else 0)

/-- One successfully `sscanf`-parsed line of `/proc/<pid>/maps`:
`start-end perms offset maj:min inode pathname`. -/
structure MapsLine where
  startAddr : Nat
  endAddr : Nat
  offset : Nat
  perms : List Char
  name : List Char

/-- The permission flags `enumerate_regions` stores into the `Region` built
from a parsed line: the source passes the `name` buffer (the pathname field)
to each `strchr`, not the `perms` buffer. -/
def regionPermissions (line : MapsLine) : Nat :=
  permBits line.name

/-! ## Thread tracing state machine (src/lib/Thread.cpp)

`Thread::state_` takes the two values `Running` and `Stopped`.  Each
operation `assert`s its required state and possibly writes a new one; an
operation is modelled as a partial map on states, `none` being the assertion
failure. -/

/-- The two values of `Thread::State`. -/
inductive TState where
  | Running
  | Stopped
deriving DecidableEq

instance : Fintype TState :=
  ⟨⟨{TState.Running, TState.Stopped}, by decide⟩, fun s => by cases s <;> decide⟩

/-- `Thread::step`: `assert(state_ == State::Stopped)`, `PTRACE_SINGLESTEP`,
then `state_ = State::Running`. -/
def threadStep : TState → Option TState
  | .Stopped => some .Running
  | .Running => none

/-- `Thread::resume`: `assert(state_ == State::Stopped)`, `PTRACE_CONT`,
then `state_ = State::Running`. -/
def threadResume : TState → Option TState
  | .Stopped => some .Running
  | .Running => none

/-- `Thread::stop`: `assert(state_ == State::Running)`, `tgkill(SIGSTOP)`;
`state_` is not written (the stop arrives asynchronously later). -/
def threadStop : TState → Option TState
  | .Running => some .Running
  | .Stopped => none

/-- `Thread::kill`: `assert(state_ == State::Running)`, `tgkill(SIGKILL)`;
`state_` is not written. -/
def threadKill : TState → Option TState
  | .Running => some .Running
  | .Stopped => none

/-- `Thread::wait`: `assert(state_ == State::Running)`, `waitpid`, then
`state_ = State::Stopped`. -/
def threadWait : TState → Option TState
  | .Running => some .Stopped
  | .Stopped => none

/-- The common shape of `Thread::is_exited`, `is_signaled`, `is_stopped`,
`is_continued`, `exit_status`, `signal_status` and `stop_status`:
`assert(state_ == State::Stopped)` and no state change. -/
def threadStatusQuery : TState → Option TState
  | .Stopped => some .Stopped
  | .Running => none

/-- `Thread::get_context`: `assert(state_ == State::Stopped)`, read every
register bank; no state change. -/
def threadGetContext : TState → Option TState
  | .Stopped => some .Stopped
  | .Running => none

/-- `Thread::set_context`: `assert(state_ == State::Stopped)`, write the
register banks; no state change. -/
def threadSetContext : TState → Option TState
  | .Stopped => some .Stopped
  | .Running => none

/-! ## Wait-status classification and the event pump's callback
(src/lib/Process.cpp `next_debug_event`)

The pump drains raw `waitpid` statuses; glibc's classification macros are
bit tests on the status word, embedded here on `Nat`. -/

/-- `WIFEXITED(s)`: the low seven bits are zero. -/
def wifexited (s : Nat) : Bool :=
  s % 128 == 0

/-- `WIFSIGNALED(s)`: `((signed char)(((s) & 0x7f) + 1) >> 1) > 0`.  The
byte `(s & 0x7f) + 1` lies in `[1, 128]`; the `signed char` cast sends `128`
to `-128`, and the arithmetic shift halves. -/
def wifsignaled (s : Nat) : Bool :=
  let b : Int := (s % 128 : Nat) + 1
  let c : Int := if b < 128 then b else b - 256
  decide (0 < c / 2)

/-- `WIFSTOPPED(s)`: the low byte equals `0x7f`. -/
def wifstopped (s : Nat) : Bool :=
  s % 256 == 127

/-- `WIFCONTINUED(s)`: the status equals `0xffff`. -/
def wifcontinued (s : Nat) : Bool :=
  s == 65535

/-- How many times one drained status makes `next_debug_event` invoke the
caller's callback, following the branch order of the drain loop: `WIFEXITED`
→ erase the thread and `continue`; `WIFCONTINUED` → `continue`;
`WIFSIGNALED` → `continue` (a `TODO` in the source); `WIFSTOPPED` → build an
`Event` and call `callback(e)` once; anything else is `assert(false)`. -/
def callbackCount (wstatus : Nat) : Nat :=
  if wifexited wstatus then 0
  else if wifcontinued wstatus then 0
  else if wifsignaled wstatus then 0
  else if wifstopped wstatus then 1
  else 0

/-! ## Breakpoints and process memory (src/lib/Breakpoint.cpp,
src/lib/Process.cpp)

Target memory is a total byte map `Nat → Nat` (the model of the success path
of `pread`/`pwrite` on `/proc/<pid>/mem`, which the built configuration
uses).  A `Breakpoint` carries the fields of the C++ class that the memory
behavior depends on; `Process::breakpoints_` is a `std::map` keyed by
address, modelled as a list in its iteration order (ascending addresses). -/

/-- The fields of class `Breakpoint` (address, installed size, saved
original bytes `old_bytes_`, installed bytes `new_bytes_`, `enabled_`,
`hit_count_`). -/
structure BP where
  address : Nat
  size : Nat
  oldBytes : List Nat
  newBytes : List Nat
  enabled : Bool
  hitCount : Nat
deriving DecidableEq, Inhabited

/-- The breakpoint instruction byte patterns of src/lib/Breakpoint.cpp. -/
inductive BPType where
  | INT3
  | INT1
  | HLT
  | CLI
  | STI
  | INSB
  | INSD
  | OUTSB
  | OUTSD
  | UD2
  | UD0
deriving DecidableEq

/-- The bytes the `Breakpoint` constructor copies into `new_bytes_`
(`size_` is their count). -/
def bpBytes : BPType → List Nat
  | .INT3 => [0xcc]
  | .INT1 => [0xf1]
  | .HLT => [0xf4]
  | .CLI => [0xfa]
  | .STI => [0xfb]
  | .INSB => [0x6c]
  | .INSD => [0x6d]
  | .OUTSB => [0x6e]
  | .OUTSD => [0x6f]
  | .UD2 => [0x0f, 0x0b]
  | .UD0 => [0x0f, 0xff]

/-- Process state: target memory plus the breakpoint table in `std::map`
iteration order. -/
structure ProcessSt where
  mem : Nat → Nat
  breakpoints : List BP

/-- The inner loop of `Process::filter_breakpoints`:
`for i < bytes.length, if off + i < buffer.length then buffer[off+i] = bytes[i]`
(`List.set` is a no-op out of range, which models the bound check). -/
def overwriteAt : List Nat → Nat → List Nat → List Nat
  | buf, _, [] => buf
  | buf, off, b :: bs => overwriteAt (buf.set off b) (off + 1) bs

/-- The `old_bytes()` read of the filter loop: `old_bytes_[i]` for
`i < size_` (the C++ array always has 2 slots; out-of-range reads of the
model default to 0). -/
def oldSlice (bp : BP) : List Nat :=
  (List.range bp.size).map fun i => bp.oldBytes.getD i 0

/-- One iteration of the `filter_breakpoints` loop body: if
`address ≤ bp_address < address + n` (with `n` the buffer length), overwrite
the buffer at `offset = bp_address - address` with the saved bytes. -/
def filterOne (address : Nat) (buf : List Nat) (bp : BP) : List Nat :=
  if address ≤ bp.address ∧ bp.address < address + buf.length then
    overwriteAt buf (bp.address - address) (oldSlice bp)
  else
    buf

/-- `Process::filter_breakpoints`: the loop over `breakpoints_`. -/
def filterBreakpoints (bps : List BP) (address : Nat) (buf : List Nat) : List Nat :=
  bps.foldl (filterOne address) buf

/-- The raw `pread` of `n` bytes at `address` (success path: all `n` bytes
arrive). -/
def readMem (mem : Nat → Nat) (address n : Nat) : List Nat :=
  (List.range n).map fun i => mem (address + i)

/-- `Process::read_memory`: the raw read followed by `filter_breakpoints`
over the returned bytes. -/
def readMemory (p : ProcessSt) (address n : Nat) : List Nat :=
  filterBreakpoints p.breakpoints address (readMem p.mem address n)

/-- `Process::write_memory` (success path of `pwrite`, no breakpoint
filtering): the bytes land in target memory. -/
def writeMem (mem : Nat → Nat) (address : Nat) (bytes : List Nat) : Nat → Nat :=
  fun a => if address ≤ a ∧ a < address + bytes.length then bytes.getD (a - address) 0 else mem a

/-- `Breakpoint::enable`: no-op when already enabled; otherwise read `size_`
bytes at `address_` through `Process::read_memory` into `old_bytes_`, write
`new_bytes_`, set `enabled_`. -/
def bpEnable (p : ProcessSt) (bp : BP) : ProcessSt × BP :=
  if bp.enabled then
    (p, bp)
  else
    let old := readMemory p bp.address bp.size
    ({ p with mem := writeMem p.mem bp.address (bp.newBytes.take bp.size) },
     { bp with oldBytes := old, enabled := true })

/-- `Breakpoint::disable` (also run by the destructor): no-op when not
enabled; otherwise write `old_bytes_` back and clear `enabled_`. -/
def bpDisable (p : ProcessSt) (bp : BP) : ProcessSt × BP :=
  if bp.enabled then
    ({ p with mem := writeMem p.mem bp.address (bp.oldBytes.take bp.size) },
     { bp with enabled := false })
  else
    (p, bp)

/-- The `Breakpoint` constructor: select size and bytes from the type
table, then `enable` (the object is not yet in the process's map). -/
def mkBreakpoint (p : ProcessSt) (address : Nat) (t : BPType) : ProcessSt × BP :=
  bpEnable p
    { address := address
      size := (bpBytes t).length
      oldBytes := []
      newBytes := bpBytes t
      enabled := false
      hitCount := 0 }

/-- Sorted insertion into the breakpoint table, modelling
`std::map::emplace` iteration order (an existing key keeps the map
unchanged). -/
def insertBP (bp : BP) : List BP → List BP
  | [] => [bp]
  | b :: bs =>
    if bp.address < b.address then bp :: b :: bs
    else if bp.address = b.address then b :: bs
    else b :: insertBP bp bs

/-- `Process::add_breakpoint`: construct (which enables) and insert by
address. -/
def addBreakpoint (p : ProcessSt) (address : Nat) (t : BPType) : ProcessSt :=
  let pb := mkBreakpoint p address t
  { pb.1 with breakpoints := insertBP pb.2 pb.1.breakpoints }

/-- `Process::find_breakpoint`: lookup by exact address. -/
def findBreakpoint (bps : List BP) (address : Nat) : Option BP :=
  bps.find? fun bp => bp.address == address

/-- `Process::remove_breakpoint`: erase the entry; the destructor of the
erased breakpoint disables it, restoring the saved bytes. -/
def removeBreakpoint (p : ProcessSt) (address : Nat) : ProcessSt :=
  match findBreakpoint p.breakpoints address with
  | some bp =>
    { mem := (bpDisable p bp).1.mem
      breakpoints := p.breakpoints.filter fun b => b.address ≠ address }
  | none => p

/-! ## Trap resolution in the event pump (src/lib/Process.cpp lines 577-592)

On a plain trap stop (not a clone event, not an exit-stage trace event) the
pump runs `for i = 1..2 { bp := find_breakpoint(ip - i); if bp ∧ bp.size = i
then { ip_ref = ip - i; set_context; break } }`.  `ip - i` is 64-bit
wrapping subtraction. -/

/-- 64-bit wrapping subtraction `a - b` for `b ≤ 2 ^ 64`. -/
def wsub64 (a b : Nat) : Nat :=
  (a + (2 ^ 64 - b)) % 2 ^ 64

/-- The `i = 2` iteration of the search loop. -/
def trapSearchSnd (bps : List BP) (ip : Nat) : Option BP :=
  match findBreakpoint bps (wsub64 ip 2) with
  | some bp => if bp.size = 2 then some bp else none
  | none => none

/-- The search of the loop: the first `i ∈ {1, 2}` whose
`find_breakpoint(ip - i)` yields a breakpoint of size `i`. -/
def trapSearch (bps : List BP) (ip : Nat) : Option BP :=
  match findBreakpoint bps (wsub64 ip 1) with
  | some bp => if bp.size = 1 then some bp else trapSearchSnd bps ip
  | none => trapSearchSnd bps ip

/-- The whole trap-resolution step: the new program counter committed by
`set_context` together with the breakpoint table after the step.  The loop
body only assigns `ip_ref`; it never touches a breakpoint, so the table
passes through unchanged. -/
def resolveTrap (bps : List BP) (ip : Nat) : Nat × List BP :=
  match trapSearch bps ip with
  | some bp => (bp.address, bps)
  | none => (ip, bps)

/-! ## x87 decoding of the xsave area (src/lib/Thread.cpp `get_xstate64`)

`Context_x86_64_xstate.st_space` is `uint8_t[128]`, eight 16-byte lanes. -/

/-- The xsave fields `Thread::get_xstate64` reads for the x87 bank. -/
structure XSave64 where
  xstate_bv : Nat
  cwd : Nat
  swd : Nat
  ftw : Nat
  fop : Nat
  rip : Nat
  rdp : Nat
  st_space : List Nat
deriving DecidableEq

/-- The x87 sub-bank of `Context_xstate`. -/
structure X87Bank where
  registers : List (List Nat)
  inst_ptr_offset : Nat
  data_ptr_offset : Nat
  inst_ptr_selector : Nat
  data_ptr_selector : Nat
  control_word : Nat
  status_word : Nat
  tag_word : Nat
  opcode : Nat
  filled : Bool
deriving DecidableEq

/-- `memcpy` of 16 bytes out of `st_space` starting at byte offset `off`. -/
def stLane (st : List Nat) (off : Nat) : List Nat :=
  (st.drop off).take 16

/-- The x87 branch of `Thread::get_xstate64` when `xstate_bv` has bit 0 set:
lane `n` of the context is copied from
`st_space + FpuRegisterSize * st_space[n * FpuRegisterSize]` — the byte
offset is `16 *` the *value of the first byte of source lane `n`*, not
`16 * n`. -/
def decodeX87_64 (xs : XSave64) : X87Bank :=
  { registers := (List.range 8).map fun n => stLane xs.st_space (16 * xs.st_space.getD (16 * n) 0)
    inst_ptr_offset := xs.rip
    data_ptr_offset := xs.rdp
    inst_ptr_selector := 0
    data_ptr_selector := 0
    control_word := xs.cwd
    status_word := xs.swd
    tag_word := xs.ftw
    opcode := xs.fop
    filled := true }

/-- Modelled from the spec (for comparison only): the x87 lane copy as the
spec states it, "copy eight 80-bit registers into 16-byte lanes" — lane `n`
of the context comes from byte offset `16 * n` of `st_space` (this is also
what the 32-bit decoder `get_xstate32_modern` does). -/
def decodeX87LanesSpec (st : List Nat) : List (List Nat) :=
  (List.range 8).map fun n => stLane st (16 * n)

/-- The position-disjointness of two breakpoints' installed byte ranges. -/
def rangesDisjoint (b1 b2 : BP) : Prop :=
  b1.address + b1.size ≤ b2.address ∨ b2.address + b2.size ≤ b1.address

instance : DecidableRel rangesDisjoint := fun _ _ =>
  inferInstanceAs (Decidable (_ ∨ _))

/-! ## Concrete states used to evaluate the model -/

/-- A maps line with the field values of the sample line quoted in the
source comment of `enumerate_regions`:
`00400000-00452000 r-xp 00000000 08:02 173521 /usr/bin/dbus-daemon`. -/
def demoMapsLine : MapsLine where
  startAddr := 0x400000
  endAddr := 0x452000
  offset := 0
  perms := ['r', '-', 'x', 'p']
  name := ['/', 'u', 's', 'r', '/', 'b', 'i', 'n', '/', 'd', 'b', 'u', 's', '-', 'd', 'a', 'e', 'm', 'o', 'n']

/-- An xsave area with the x87 bit set whose `st_space` lane 0 starts with
byte value 1 and whose lane 1 is sixteen `0x22` bytes. -/
def demoXSave : XSave64 where
  xstate_bv := 1
  cwd := 0x037f
  swd := 0
  ftw := 0
  fop := 0
  rip := 0
  rdp := 0
  st_space := (1 :: List.replicate 15 0) ++ (List.replicate 16 0x22 ++ List.replicate 96 0)

/-- A table holding one enabled 1-byte INT3 breakpoint at `0x1000` with hit
count 0. -/
def demoTrapBps : List BP :=
  [{ address := 4096, size := 1, oldBytes := [0x90], newBytes := [0xcc], enabled := true, hitCount := 0 }]

/-- A process whose memory is a NOP sled (`0x90` everywhere) after
`add_breakpoint(100)` with a 2-byte UD2 breakpoint. -/
def demoStraddle : ProcessSt :=
  addBreakpoint { mem := fun _ => 0x90, breakpoints := [] } 100 .UD2

/-- A process whose memory already holds `0xcc` everywhere (the INT3 trap
byte) and has no breakpoints. -/
def demoRoundP : ProcessSt where
  mem := fun _ => 0xcc
  breakpoints := []

/-- A not-yet-enabled 1-byte INT3 breakpoint at `4096` for `demoRoundP`:
the instruction byte there is exactly the trap byte. -/
def demoRoundBP : BP where
  address := 4096
  size := 1
  oldBytes := []
  newBytes := [0xcc]
  enabled := false
  hitCount := 0

/-! ## Helper lemmas -/

theorem leBytes_length (k v : Nat) : (leBytes k v).length = k := by
  induction k generalizing v with
  | zero => rfl
  | succ k ih => simp [leBytes, ih]

theorem leDecode_leBytes (k v : Nat) : leDecode (leBytes k v) = v % 256 ^ k := by
  induction k generalizing v with
  | zero => simp [leBytes, leDecode, Nat.mod_one]
  | succ k ih =>
    rw [pow_succ, mul_comm (256 ^ k) 256, Nat.mod_mul]
    simp [leBytes, leDecode, ih]

theorem leDecode_append_zeros (bs : List Nat) (m : Nat) :
    leDecode (bs ++ List.replicate m 0) = leDecode bs := by
  induction bs with
  | nil =>
    induction m with
    | zero => rfl
    | succ m ih => simpa [leDecode, List.replicate_succ] using ih
  | cons b bs ih => simp [leDecode, ih]

theorem overwriteAt_length (bs buf : List Nat) (off : Nat) :
    (overwriteAt buf off bs).length = buf.length := by
  induction bs generalizing buf off with
  | nil => rfl
  | cons b bs ih => simp [overwriteAt, ih]

theorem overwriteAt_getD_outside (bs buf : List Nat) (off j : Nat)
    (h : j < off ∨ off + bs.length ≤ j) :
    (overwriteAt buf off bs).getD j 0 = buf.getD j 0 := by
  induction bs generalizing buf off with
  | nil => rfl
  | cons b bs ih =>
    have hj : off ≠ j := by simp at h; omega
    rw [overwriteAt, ih (buf.set off b) (off + 1) (by simp at h ⊢; omega)]
    simp [List.getD, List.getElem?_set_ne hj]

theorem overwriteAt_getD_inside (bs buf : List Nat) (off j : Nat)
    (h1 : off ≤ j) (h2 : j < off + bs.length) (h3 : j < buf.length) :
    (overwriteAt buf off bs).getD j 0 = bs.getD (j - off) 0 := by
  induction bs generalizing buf off with
  | nil => simp at h2; omega
  | cons b bs ih =>
    rw [overwriteAt]
    rcases Nat.eq_or_lt_of_le h1 with heq | hlt
    · subst heq
      rw [overwriteAt_getD_outside bs (buf.set off b) (off + 1) off (Or.inl (by omega))]
      simp [List.getD, List.getElem?_set_self, h3]
    · rw [ih (buf.set off b) (off + 1) hlt (by simp at h2 ⊢; omega) (by simpa using h3)]
      have harith : j - off = (j - (off + 1)) + 1 := by omega
      rw [harith, List.getD_cons_succ]

theorem oldSlice_length (bp : BP) : (oldSlice bp).length = bp.size := by
  simp [oldSlice]

theorem oldSlice_getD (bp : BP) (i : Nat) (h : i < bp.size) :
    (oldSlice bp).getD i 0 = bp.oldBytes.getD i 0 := by
  simp [oldSlice, List.getD, List.getElem?_map, List.getElem?_range h]

theorem filterOne_length (address : Nat) (buf : List Nat) (bp : BP) :
    (filterOne address buf bp).length = buf.length := by
  unfold filterOne
  split <;> simp [overwriteAt_length]

theorem filterOne_getD_untouched (address : Nat) (buf : List Nat) (b : BP) (j : Nat)
    (h : address + j < b.address ∨ b.address + b.size ≤ address + j) :
    (filterOne address buf b).getD j 0 = buf.getD j 0 := by
  unfold filterOne
  split
  case isTrue hw =>
    apply overwriteAt_getD_outside
    rw [oldSlice_length]
    rcases h with h | h
    · left; omega
    · right; omega
  case isFalse hw => rfl

theorem filterOne_getD_hit (address : Nat) (buf : List Nat) (b : BP) (i : Nat)
    (hlo : address ≤ b.address) (hhi : b.address < address + buf.length)
    (hi : i < b.size) (hin : b.address - address + i < buf.length) :
    (filterOne address buf b).getD (b.address - address + i) 0 = b.oldBytes.getD i 0 := by
  unfold filterOne
  rw [if_pos ⟨hlo, hhi⟩,
    overwriteAt_getD_inside _ _ _ _ (by omega) (by rw [oldSlice_length]; omega) hin]
  have harith : b.address - address + i - (b.address - address) = i := by omega
  rw [harith, oldSlice_getD _ _ hi]

theorem foldl_filterOne_untouched (rest : List BP) (address : Nat) (buf : List Nat) (j : Nat)
    (h : ∀ b ∈ rest, address + j < b.address ∨ b.address + b.size ≤ address + j) :
    (rest.foldl (filterOne address) buf).getD j 0 = buf.getD j 0 := by
  induction rest generalizing buf with
  | nil => rfl
  | cons b rest ih =>
    rw [List.foldl_cons, ih _ (fun b' hb' => h b' (List.mem_cons_of_mem _ hb')),
      filterOne_getD_untouched _ _ _ _ (h b (List.mem_cons_self _ _))]

theorem filterBreakpoints_getD (bps : List BP) (address : Nat) (buf : List Nat) (bp : BP) (i : Nat)
    (hmem : bp ∈ bps) (hdisj : bps.Pairwise rangesDisjoint)
    (hlo : address ≤ bp.address) (hhi : bp.address < address + buf.length)
    (hi : i < bp.size) (hin : bp.address - address + i < buf.length) :
    (filterBreakpoints bps address buf).getD (bp.address - address + i) 0 = bp.oldBytes.getD i 0 := by
  induction bps generalizing buf with
  | nil => cases hmem
  | cons b rest ih =>
    rw [filterBreakpoints, List.foldl_cons]
    rcases List.mem_cons.mp hmem with heq | hmem'
    · subst heq
      rw [foldl_filterOne_untouched rest address _ _ ?_]
      · exact filterOne_getD_hit address buf bp i hlo hhi hi hin
      · intro b' hb'
        have hd := (List.pairwise_cons.mp hdisj).1 b' hb'
        rcases hd with hd | hd
        · left; omega
        · right; omega
    · have hlen := filterOne_length address buf b
      simpa [filterBreakpoints] using
        ih (filterOne address buf b) hmem' (List.pairwise_cons.mp hdisj).2
          (by rw [hlen]; exact hhi) (by rw [hlen]; exact hin)

theorem readMem_length (m : Nat → Nat) (address n : Nat) :
    (readMem m address n).length = n := by
  simp [readMem]

theorem readMem_getD (m : Nat → Nat) (address n i : Nat) (h : i < n) :
    (readMem m address n).getD i 0 = m (address + i) := by
  simp [readMem, List.getD, List.getElem?_map, List.getElem?_range h]

theorem findBreakpoint_address (bps : List BP) (a : Nat) (bp : BP)
    (h : findBreakpoint bps a = some bp) : bp.address = a := by
  have := List.find?_some h
  simpa using this

theorem trapSearchSnd_spec (bps : List BP) (ip : Nat) (bp : BP)
    (h : trapSearchSnd bps ip = some bp) :
    bp.address = wsub64 ip 2 ∧ bp.size = 2 := by
  unfold trapSearchSnd at h
  split at h
  next b heq =>
    split at h
    next hsz =>
      cases h
      exact ⟨findBreakpoint_address _ _ _ heq, hsz⟩
    next hsz => cases h
  next heq => cases h

theorem trapSearch_spec (bps : List BP) (ip : Nat) (bp : BP)
    (h : trapSearch bps ip = some bp) :
    (bp.address = wsub64 ip 1 ∧ bp.size = 1) ∨ (bp.address = wsub64 ip 2 ∧ bp.size = 2) := by
  unfold trapSearch at h
  split at h
  next b heq =>
    split at h
    next hsz =>
      cases h
      exact Or.inl ⟨findBreakpoint_address _ _ _ heq, hsz⟩
    next hsz => exact Or.inr (trapSearchSnd_spec _ _ _ h)
  next heq => exact Or.inr (trapSearchSnd_spec _ _ _ h)

theorem wsub64_add_cancel (ip i : Nat) (hip : ip < 2 ^ 64) (hi : i ≤ 2 ^ 64) :
    (wsub64 ip i + i) % 2 ^ 64 = ip := by
  unfold wsub64
  rw [Nat.mod_add_mod]
  have harith : ip + (2 ^ 64 - i) + i = ip + 2 ^ 64 := by omega
  rw [harith, Nat.add_mod_right, Nat.mod_eq_of_lt hip]

/-! ## Claim C1 — breakpoint filtering of reads -/

/-- Claim C1, counterexample: after `add_breakpoint(100)` with a 2-byte UD2
breakpoint on NOP-sled memory, the saved bytes are `[0x90, 0x90]` and the
breakpoint's range is `[100, 102)`; yet `read_memory(101, 1)` — a read
starting strictly inside the breakpoint — returns the installed trap byte
`0x0b`, not the saved byte `0x90`: the filter only fires for breakpoints
whose start address lies inside the read range. -/
theorem read_memory_straddle_counterexample :
    (demoStraddle.breakpoints.map fun b => (b.address, b.size, b.oldBytes)) = [(100, 2, [0x90, 0x90])]
    ∧ readMemory demoStraddle 101 1 = [0x0b]
    ∧ ¬readMemory demoStraddle 101 1 = [0x90] := by
  decide

/-- Claim C1, amended: for every breakpoint `bp` of the table whose *start*
address lies inside the read range `[address, address + n)` (the condition
`filter_breakpoints` actually tests), and whose installed range does not
overlap any other breakpoint's, every byte of `bp`'s installed range that
falls inside the read is replaced by the corresponding saved byte. -/
theorem read_memory_filters_saved_bytes (p : ProcessSt) (address n : Nat) (bp : BP) (i : Nat)
    (hmem : bp ∈ p.breakpoints)
    (hdisj : p.breakpoints.Pairwise rangesDisjoint)
    (hlo : address ≤ bp.address) (hhi : bp.address < address + n)
    (hi : i < bp.size) (hin : bp.address - address + i < n) :
    (readMemory p address n).getD (bp.address - address + i) 0 = bp.oldBytes.getD i 0 := by
  unfold readMemory
  have hlen := readMem_length p.mem address n
  exact filterBreakpoints_getD p.breakpoints address _ bp i hmem hdisj hlo
    (by rw [hlen]; exact hhi) hi (by rw [hlen]; exact hin)

/-- Claim C1, witness: the amended theorem applied to `demoStraddle` at a
read of 4 bytes from address 99, position of saved byte 0. -/
theorem read_memory_filters_saved_bytes_witness :
    (∃ bp ∈ demoStraddle.breakpoints, bp.address = 100 ∧ bp.size = 2)
    ∧ (readMemory demoStraddle 99 4).getD 1 0 = 0x90 := by
  constructor
  · exact ⟨demoStraddle.breakpoints.headD default, by decide, by decide, by decide⟩
  · have h := read_memory_filters_saved_bytes demoStraddle 99 4
      (demoStraddle.breakpoints.headD default) 0
      (by decide) (by decide) (by decide) (by decide) (by decide) (by decide)
    simpa using h

/-! ## Claim C2 — breakpoint hit resolution in the event pump -/

/-- Claim C2, counterexample: with an enabled 1-byte breakpoint at `0x1000`
whose hit count is 0 and a trap stop at PC `0x1001`, the pump's trap branch
rewinds the PC to `0x1000` but leaves the hit count at 0 — `Breakpoint::hit`
is never invoked, so the claim's "increments b's hit count" is false. -/
theorem trap_resolution_counterexample :
    (resolveTrap demoTrapBps 4097).1 = 4096
    ∧ (resolveTrap demoTrapBps 4097).2.map BP.hitCount = [0]
    ∧ ¬(resolveTrap demoTrapBps 4097).2.map BP.hitCount = [1] := by
  decide

/-- Claim C2, amended: when the pump drains a plain trap stop and the
search finds a breakpoint whose installation ends at the current PC, it
sets the thread's PC to exactly `bp.address` (so `bp.address + bp.size`
equals the old PC modulo `2 ^ 64`), and the breakpoint table — hit counts
included — passes through unchanged. -/
theorem trap_resolution_rewinds_pc (bps : List BP) (ip : Nat) (bp : BP)
    (hip : ip < 2 ^ 64)
    (hfound : trapSearch bps ip = some bp) :
    resolveTrap bps ip = (bp.address, bps) ∧ (bp.address + bp.size) % 2 ^ 64 = ip := by
  constructor
  · simp [resolveTrap, hfound]
  · rcases trapSearch_spec bps ip bp hfound with ⟨ha, hs⟩ | ⟨ha, hs⟩ <;>
      rw [ha, hs] <;> exact wsub64_add_cancel ip _ hip (by norm_num)

/-- Claim C2, witness: the amended theorem applied to the demo table at PC
`0x1001`. -/
theorem trap_resolution_rewinds_pc_witness :
    4097 < 2 ^ 64
    ∧ trapSearch demoTrapBps 4097 =
        some { address := 4096, size := 1, oldBytes := [0x90], newBytes := [0xcc], enabled := true, hitCount := 0 }
    ∧ resolveTrap demoTrapBps 4097 = (4096, demoTrapBps) := by
  refine ⟨by norm_num, by decide, ?_⟩
  exact (trap_resolution_rewinds_pc demoTrapBps 4097
    { address := 4096, size := 1, oldBytes := [0x90], newBytes := [0xcc], enabled := true, hitCount := 0 }
    (by norm_num) (by decide)).1

/-! ## Claim C3 — `RegisterRef` write/read round trip -/

/-- Claim C3: assigning `v` through a `RegisterRef` of field size `S` with
an integral type of `isize` bytes and reading it back with the same type
yields `v` masked to the low `min S isize` bytes; the rest of the `S`-byte
field is zeroed by the write (zero-extension when the write is shorter than
the field; truncation to the low-order bytes when it is wider). -/
theorem register_assign_as_roundtrip (S isize v : Nat) :
    regAs (regAssign S isize v) isize = v % 2 ^ (8 * min S isize)
    ∧ (regAssign S isize v).drop (min S isize) = List.replicate (S - min S isize) 0
    ∧ (regAssign S isize v).length = S := by
  refine ⟨?_, ?_, ?_⟩
  · unfold regAs regAssign
    rw [List.take_append_eq_append_take, leBytes_length,
      List.take_of_length_le (by rw [leBytes_length]; exact min_le_right S isize),
      List.take_replicate, leDecode_append_zeros, leDecode_leBytes, pow_mul]
    norm_num
  · unfold regAssign
    have hdrop := List.drop_left (leBytes (min S isize) v) (List.replicate (S - min S isize) 0)
    rw [leBytes_length] at hdrop
    exact hdrop
  · unfold regAssign
    rw [List.length_append, leBytes_length, List.length_replicate]
    omega

/-! ## Claim C4 — compound operators at field width -/

/-- Claim C4 fails on the code: every case of the `operator++` switch copies
only one byte in and out (`memcpy(&uN, ptr_, 1)`, `memcpy(ptr_, &uN, 1)`),
so incrementing a 4-byte field holding `0x000000FF` writes byte 0 and leaves
bytes 1..3 untouched, producing `0x00000000` instead of the field-width
result `0x00000100`. -/
theorem compound_add_one_byte_bug :
    regInc (leBytes 4 0xff) = some (leBytes 4 0)
    ∧ ¬regInc (leBytes 4 0xff) = some (leBytes 4 0x100)
    ∧ regAddAssign (leBytes 4 0xff) 1 = some (leBytes 4 0)
    ∧ ¬regAddAssign (leBytes 4 0xff) 1 = some (leBytes 4 0x100) := by
  decide

/-! ## Claim C5 — the region-map hash -/

/-- Claim C5, counterexample: hashing the bytes of `"abc"` does not yield
the FNV-1a value `0xe71fa2190541574b` the claim states. -/
theorem hasher_fnv1a_counterexample :
    ¬hashBytes [97, 98, 99] = 0xe71fa2190541574b := by
  decide

/-- Claim C5, amended: `hasher::update` multiplies the state by the prime
*first* and xors the byte in *afterwards* — the FNV-1 variant, not FNV-1a —
so hashing `"abc"` yields `0xd8dcca186bafadcb`; the spec's xor-first order
would yield `0xe71fa2190541574b`. -/
theorem hasher_is_fnv1 :
    hashBytes [97, 98, 99] = 0xd8dcca186bafadcb
    ∧ fnv1aHashSpec [97, 98, 99] = 0xe71fa2190541574b := by
  decide

/-! ## Claim C6 — region permission bits -/

/-- Claim C6 fails on the code: the five `strchr` tests of
`enumerate_regions` scan the `name` buffer (the pathname field), not the
`perms` buffer — `perms` is parsed and never consulted.  For the sample
line of the source comment (perms `r-xp`, pathname `/usr/bin/dbus-daemon`)
the code produces `Read|Shared = 0x1001` where the perms field dictates
`Read|Execute|Private = 0x2005`. -/
theorem region_permissions_use_pathname_bug :
    regionPermissions demoMapsLine = 0x1001
    ∧ permBits demoMapsLine.perms = 0x2005
    ∧ ¬regionPermissions demoMapsLine = permBits demoMapsLine.perms := by
  decide

/-! ## Claim C7 — the thread tracing state machine -/

/-- Claim C7: `step` and `resume` succeed exactly from `Stopped` and leave
`Running`; `stop` and `kill` require `Running`; `wait` requires `Running`
and leaves `Stopped`; register access (`get_context`, `set_context`) and
every status query require `Stopped` and do not change the state. -/
theorem thread_state_machine :
    ∀ s : TState,
      (¬threadStep s = none ↔ s = .Stopped) ∧ threadStep .Stopped = some .Running
      ∧ (¬threadResume s = none ↔ s = .Stopped) ∧ threadResume .Stopped = some .Running
      ∧ (¬threadStop s = none ↔ s = .Running) ∧ threadStop .Running = some .Running
      ∧ (¬threadKill s = none ↔ s = .Running)
      ∧ (¬threadWait s = none ↔ s = .Running) ∧ threadWait .Running = some .Stopped
      ∧ (¬threadStatusQuery s = none ↔ s = .Stopped) ∧ threadStatusQuery .Stopped = some .Stopped
      ∧ (¬threadGetContext s = none ↔ s = .Stopped) ∧ threadGetContext .Stopped = some .Stopped
      ∧ (¬threadSetContext s = none ↔ s = .Stopped) ∧ threadSetContext .Stopped = some .Stopped := by
  decide

/-! ## Claim C8 — breakpoint enable/disable round trip -/

/-- Claim C8: enabling a disabled breakpoint (which saves the bytes read
through the filtered read path and installs the trap bytes) and then
disabling it restores every byte of target memory, for any prior content —
including content identical to the trap bytes; enabling an enabled
breakpoint and disabling a disabled one change nothing.  The hypothesis
`hraw` states that the filtered read of the breakpoint's own range returns
the raw memory bytes (no *other* breakpoint's start address lies in that
range), which is how `enable` captures the true memory content. -/
theorem breakpoint_enable_disable_roundtrip (p : ProcessSt) (bp : BP)
    (hdis : bp.enabled = false)
    (hraw : readMemory p bp.address bp.size = readMem p.mem bp.address bp.size) :
    (∀ a, (bpDisable (bpEnable p bp).1 (bpEnable p bp).2).1.mem a = p.mem a)
    ∧ (∀ q c, c.enabled = true → bpEnable q c = (q, c))
    ∧ (∀ q c, c.enabled = false → bpDisable q c = (q, c)) := by
  refine ⟨?_, ?_, ?_⟩
  · intro a
    rw [bpEnable, if_neg (by simp [hdis])]
    dsimp only
    rw [bpDisable, if_pos rfl]
    dsimp only
    rw [hraw]
    have hlen : (readMem p.mem bp.address bp.size).length = bp.size :=
      readMem_length p.mem bp.address bp.size
    rw [List.take_of_length_le (le_of_eq hlen)]
    by_cases hwin : bp.address ≤ a ∧ a < bp.address + bp.size
    · have hcond : bp.address ≤ a ∧ a < bp.address + (readMem p.mem bp.address bp.size).length := by
        rw [hlen]; exact hwin
      simp only [writeMem, if_pos hcond]
      rw [readMem_getD p.mem bp.address bp.size (a - bp.address) (by omega)]
      congr 1
      omega
    · have hc1 : ¬(bp.address ≤ a ∧ a < bp.address + (readMem p.mem bp.address bp.size).length) := by
        rw [hlen]; exact hwin
      have hc2 : ¬(bp.address ≤ a ∧ a < bp.address + (bp.newBytes.take bp.size).length) := by
        intro hc
        apply hwin
        have hle : (bp.newBytes.take bp.size).length ≤ bp.size := by
          rw [List.length_take]; exact min_le_left _ _
        exact ⟨hc.1, by omega⟩
      simp only [writeMem, if_neg hc1, if_neg hc2]
  · intro q c hc
    rw [bpEnable, if_pos hc]
  · intro q c hc
    rw [bpDisable, if_neg (by simp [hc])]

/-- Claim C8, witness: the round trip on `demoRoundP` and `demoRoundBP`,
where the original instruction byte equals the trap byte `0xcc`; memory at
the breakpoint address is `0xcc` again after enable-then-disable. -/
theorem breakpoint_enable_disable_roundtrip_witness :
    demoRoundBP.enabled = false
    ∧ readMemory demoRoundP 4096 1 = readMem demoRoundP.mem 4096 1
    ∧ (bpDisable (bpEnable demoRoundP demoRoundBP).1 (bpEnable demoRoundP demoRoundBP).2).1.mem 4096 = 0xcc := by
  refine ⟨rfl, rfl, ?_⟩
  exact (breakpoint_enable_disable_roundtrip demoRoundP demoRoundBP rfl rfl).1 4096

/-! ## Claim C9 — x87 lane copy of the xsave decoder -/

/-- Claim C9 fails on the code: `get_xstate64` copies context lane `n` from
`st_space + 16 * st_space[16 * n]`, using the first *data byte* of source
lane `n` as a lane index instead of `n` itself.  With lane 0 starting with
byte value 1 and lane 1 holding sixteen `0x22` bytes, the decoder stores
lane 1's bytes into context lane 0 instead of lane 0's own bytes (which the
spec-faithful per-`n` copy, as the 32-bit decoder performs it, would
store). -/
theorem xstate_x87_lane_index_bug :
    (decodeX87_64 demoXSave).registers.getD 0 [] = List.replicate 16 0x22
    ∧ (decodeX87LanesSpec demoXSave.st_space).getD 0 [] = 1 :: List.replicate 15 0
    ∧ ¬(decodeX87_64 demoXSave).registers = decodeX87LanesSpec demoXSave.st_space
    ∧ (decodeX87_64 demoXSave).control_word = demoXSave.cwd
    ∧ (decodeX87_64 demoXSave).status_word = demoXSave.swd
    ∧ (decodeX87_64 demoXSave).tag_word = demoXSave.ftw
    ∧ (decodeX87_64 demoXSave).opcode = demoXSave.fop
    ∧ (decodeX87_64 demoXSave).inst_ptr_offset = demoXSave.rip
    ∧ (decodeX87_64 demoXSave).data_ptr_offset = demoXSave.rdp
    ∧ (decodeX87_64 demoXSave).filled = true := by
  decide

/-! ## Claim C10 — one callback per drained status change -/

/-- Claim C10, counterexample: a drained clean-exit status (raw status 0,
`WIFEXITED`) and a drained killed-by-SIGKILL status (raw status 9,
`WIFSIGNALED`) each invoke the callback zero times, not once. -/
theorem callback_per_drain_counterexample :
    wifexited 0 = true ∧ callbackCount 0 = 0 ∧ ¬callbackCount 0 = 1
    ∧ wifsignaled 9 = true ∧ callbackCount 9 = 0 ∧ ¬callbackCount 9 = 1 := by
  decide

/-- Claim C10, amended: within one pump invocation the callback is invoked
exactly once for every drained *stop* notification and zero times for every
other drained status change (exit, termination by signal, continuation). -/
theorem callback_only_for_stops (s : Nat) :
    callbackCount s = if wifstopped s then 1 else 0 := by
  by_cases hst : wifstopped s = true
  · have h256 : s % 256 = 127 := by simpa [wifstopped] using hst
    have h128 : s % 128 = 127 := by
      have hd : s % 128 = s % 256 % 128 := (Nat.mod_mod_of_dvd s (by norm_num)).symm
      rw [hd, h256]
    have he : wifexited s = false := by simp [wifexited, h128]
    have hc : wifcontinued s = false := by
      have hne : ¬s = 65535 := by
        intro h
        rw [h] at h256
        norm_num at h256
      simp [wifcontinued, hne]
    have hs : wifsignaled s = false := by
      simp [wifsignaled, h128]
    simp [callbackCount, he, hc, hs, hst]
  · have hst' : wifstopped s = false := by simpa using hst
    simp only [callbackCount, hst', if_false, Bool.false_eq_true]
    split_ifs <;> rfl

end LibDebug
